import Mathlib

/-!
Verification development for the race-telemetry synchronization engine of the
`f1_data_backend` repository (`app/services/f1_telemetry.py`, function
`get_race_telemetry`).

The engine is embedded shallowly over exact rationals `ℚ` (the Python source
computes with IEEE floats / numpy float64; the embedding uses the real-number
semantics of the same formulas).  Machine-level conventions of the source that
the embedding keeps:

* `np.arange(a, b, dt) - a` produces `i * dt` for `0 ≤ i < ⌈(b - a)/dt⌉`
  (empty when `b ≤ a`);
* `np.interp` clamps to the first / last sample value outside the knot range
  and interpolates linearly inside;
* Python `round` is round-half-to-even (`pyRound`, `pyRoundTo`), Python
  `int(...)` on a float truncates toward zero (`pyTrunc`);
* Python `list.sort(key=..., reverse=True)` is a stable descending sort,
  modelled with `List.insertionSort` (stable);
* `np.argsort` tie order is unspecified; the embedding again uses the stable
  sort, which agrees with the source whenever timestamps are distinct;
* a Python `dict` keyed by driver code is modelled as an association list in
  insertion order, with `upsert` for `d[k] = v`;
* the uncaught `TypeError` the source hits when no driver produced any
  telemetry (`np.arange(None, None, DT)`) is modelled by the engine returning
  `none`.

Per-sample channels are parametrised by a scalar type `α` for the channels the
extraction step merely copies (x, y, relative distance, speed, gear, drs); the
engine instantiates `α := ℚ`, while `α := Option ℚ` is used to reason about
non-finite values (`none` models numpy's NaN/inf markers) flowing through the
extraction step, which performs no finiteness check.
-/

namespace F1

/-- FPS = 25, DT = 1 / FPS (module constants of the source). -/
def DT : ℚ := 1 / 25

/-- One raw telemetry sample of one lap: SessionTime (seconds), X, Y,
Distance (within-lap cumulative distance), RelativeDistance, Speed, nGear,
DRS.  `t` and `dist` stay `ℚ` because the extractor does arithmetic on them;
the remaining channels are copied verbatim and are parametrised by `α`. -/
structure RawSample (α : Type) where
  t : ℚ
  x : α
  y : α
  dist : ℚ
  relDist : α
  speed : α
  gear : α
  drs : α
deriving DecidableEq

/-- One lap of one driver: `lap.LapNumber`, the integer tyre-compound code
(`get_tyre_compound_int(lap.Compound)`, an external lookup, taken as input),
and the lap's telemetry samples. -/
structure Lap (α : Type) where
  lapNumber : ℚ
  compound : ℚ
  samples : List (RawSample α)
deriving DecidableEq

/-- One entry of a driver's concatenated trace: the per-lap channels plus the
constant-per-lap `lap` and `tyre` channels (`np.full_like`), with `dist`
replaced by cumulative race distance. -/
structure TraceSample (α : Type) where
  t : ℚ
  x : α
  y : α
  dist : ℚ
  relDist : α
  lap : ℚ
  tyre : ℚ
  speed : α
  gear : α
  drs : α
deriving DecidableEq

/-- Numpy `l.min()` for a nonempty rational array (0 for the empty array,
which the source never queries). -/
def listMinQ : List ℚ → ℚ
  | [] => 0
  | a :: rest => rest.foldl min a

/-- Numpy `l.max()` for a nonempty rational array. -/
def listMaxQ : List ℚ → ℚ
  | [] => 0
  | a :: rest => rest.foldl max a

/-- Per-lap processing and concatenation (source lines 138-176): laps with no
samples are skipped; a lap's distance channel is normalised to start at 0, the
lap length is its post-normalisation maximum, race distance is the running
total plus the normalised in-lap distance, and the running total grows by the
lap length. -/
def processLaps {α : Type} (total : ℚ) : List (Lap α) → List (TraceSample α)
  | [] => []
  | lap :: rest =>
    match lap.samples with
    | [] => processLaps total rest
    | s :: ss =>
      let ds := (s :: ss).map (·.dist)
      let minD := listMinQ ds
      let lapLen := listMaxQ (ds.map (· - minD))
      ((s :: ss).map fun smp =>
        { t := smp.t, x := smp.x, y := smp.y,
          dist := total + (smp.dist - minD),
          relDist := smp.relDist,
          lap := lap.lapNumber, tyre := lap.compound,
          speed := smp.speed, gear := smp.gear, drs := smp.drs })
      ++ processLaps (total + lapLen) rest

/-- Time order on trace samples (the key of `np.argsort(t_all)`). -/
def leT {α : Type} (a b : TraceSample α) : Prop := a.t ≤ b.t

instance {α : Type} : DecidableRel (@leT α) :=
  fun a b => inferInstanceAs (Decidable (a.t ≤ b.t))

instance {α : Type} : IsTotal (TraceSample α) leT := ⟨fun a b => le_total a.t b.t⟩

instance {α : Type} : IsTrans (TraceSample α) leT := ⟨fun _ _ _ h h' => le_trans h h'⟩

/-- Sorting by `np.argsort` of the timestamps, applied to all channels at
once (source lines
192-202), modelled as a stable sort of the record list. -/
def sortByT {α : Type} (l : List (TraceSample α)) : List (TraceSample α) :=
  List.insertionSort leT l

/-- The per-driver extraction step (source lines 128-215): process the laps in
order, skip the driver when no sample survives (`if not t_all: continue`),
otherwise sort the concatenation by timestamp. -/
def extractTrace {α : Type} (laps : List (Lap α)) : Option (List (TraceSample α)) :=
  match processLaps 0 laps with
  | [] => none
  | s :: ss => some (sortByT (s :: ss))

/-- Assignment `d[k] = v` on a Python dict modelled as an insertion-ordered association
list: an existing key keeps its position, a new key is appended. -/
def upsert {β : Type} (k : String) (v : β) : List (String × β) → List (String × β)
  | [] => [(k, v)]
  | (k', v') :: rest => if k' = k then (k', v) :: rest else (k', v') :: upsert k v rest

/-- One iteration of the driver loop (source lines 119-220): extract the
trace, store it under the driver code, and fold the driver's min/max
timestamp into the global bounds (`global_t_min` / `global_t_max` start as
`None`). -/
def eddStep (acc : List (String × List (TraceSample ℚ)) × Option ℚ × Option ℚ)
    (ent : String × List (Lap ℚ)) :
    List (String × List (TraceSample ℚ)) × Option ℚ × Option ℚ :=
  match extractTrace ent.2 with
  | none => acc
  | some tr =>
    let ts := tr.map (·.t)
    let tmin := listMinQ ts
    let tmax := listMaxQ ts
    (upsert ent.1 tr acc.1,
     some (match acc.2.1 with | none => tmin | some g => min g tmin),
     some (match acc.2.2 with | none => tmax | some g => max g tmax))

/-- The whole driver loop: driver data plus global time bounds. -/
def extractDriverData (entities : List (String × List (Lap ℚ))) :
    List (String × List (TraceSample ℚ)) × Option ℚ × Option ℚ :=
  entities.foldl eddStep ([], none, none)

/-- The timeline `np.arange(gmin, gmax, DT) - gmin` (source line 226) in exact arithmetic:
`⌈(gmax - gmin)/DT⌉` ticks `0, DT, 2·DT, …` (empty when `gmax ≤ gmin`). -/
def npTimeline (gmin gmax : ℚ) : List ℚ :=
  (List.range (⌈(gmax - gmin) / DT⌉).toNat).map (fun i : ℕ => (i : ℚ) * DT)

/-- Walk of `np.interp` from a current knot `p` along the remaining knots. -/
def npInterpGo (x : ℚ) (p : ℚ × ℚ) : List (ℚ × ℚ) → ℚ
  | [] => p.2
  | q :: rest =>
    if x ≤ p.1 then p.2
    else if x ≤ q.1 then p.2 + (q.2 - p.2) * (x - p.1) / (q.1 - p.1)
    else npInterpGo x q rest

/-- Interpolation `np.interp(x, xp, fp)` over knot pairs `(xp i, fp i)` with `xp`
nondecreasing: clamp to the first value left of the first knot, to the last
value right of the last knot, and interpolate linearly in between.  (numpy
raises on an empty knot list; the `0` default is never reached because the
engine only interpolates nonempty traces.) -/
def npInterp (x : ℚ) : List (ℚ × ℚ) → ℚ
  | [] => 0
  | p :: rest => npInterpGo x p rest

/-- All interpolated channel values of one driver at one timeline tick. -/
structure Tick where
  x : ℚ
  y : ℚ
  dist : ℚ
  relDist : ℚ
  lap : ℚ
  tyre : ℚ
  speed : ℚ
  gear : ℚ
  drs : ℚ
deriving DecidableEq

/-- Shift a trace's timestamps by `-gmin` and re-sort by time (source lines
231, 242-252: `t = data["t"] - global_t_min`, then `np.argsort(t)` applied to
every channel). -/
def shiftTrace (gmin : ℚ) (tr : List (TraceSample ℚ)) : List (TraceSample ℚ) :=
  sortByT (tr.map fun s => { s with t := s.t - gmin })

/-- Evaluate every channel of a (shifted, sorted) trace at one tick via
`np.interp` (source lines 254-262). -/
def sampleTick (sorted : List (TraceSample ℚ)) (τ : ℚ) : Tick :=
  { x := npInterp τ (sorted.map fun s => (s.t, s.x)),
    y := npInterp τ (sorted.map fun s => (s.t, s.y)),
    dist := npInterp τ (sorted.map fun s => (s.t, s.dist)),
    relDist := npInterp τ (sorted.map fun s => (s.t, s.relDist)),
    lap := npInterp τ (sorted.map fun s => (s.t, s.lap)),
    tyre := npInterp τ (sorted.map fun s => (s.t, s.tyre)),
    speed := npInterp τ (sorted.map fun s => (s.t, s.speed)),
    gear := npInterp τ (sorted.map fun s => (s.t, s.gear)),
    drs := npInterp τ (sorted.map fun s => (s.t, s.drs)) }

/-- One driver's resampled channels on the shared timeline (source step 3). -/
def resampleTrace (gmin : ℚ) (timeline : List ℚ) (tr : List (TraceSample ℚ)) :
    List Tick :=
  timeline.map (sampleTick (shiftTrace gmin tr))

/-- Python `round(q)` (no digits): round half to even, returning an integer. -/
def pyRound (q : ℚ) : ℤ :=
  let f := ⌊q⌋
  let r := q - f
  if r < 1 / 2 then f
  else if 1 / 2 < r then f + 1
  else if f % 2 = 0 then f else f + 1

/-- Python `round(q, n)`: round half to even at `n` decimal places. -/
def pyRoundTo (n : ℕ) (q : ℚ) : ℚ :=
  (pyRound (q * 10 ^ n) : ℚ) / 10 ^ n

/-- Python `int(q)` on a float value: truncation toward zero. -/
def pyTrunc (q : ℚ) : ℤ :=
  if 0 ≤ q then ⌊q⌋ else ⌈q⌉

/-- One snapshot entry (source lines 304-315): the per-driver dict appended to
`snapshot`, with the source's rounding — x/y/dist/rel_dist to 1 decimal
place, lap/tyre/speed via `int(round(.))`, gear/drs via `int(.)`. -/
structure Entry where
  code : String
  dist : ℚ
  x : ℚ
  y : ℚ
  lap : ℤ
  relDist : ℚ
  tyre : ℤ
  speed : ℤ
  gear : ℤ
  drs : ℤ
deriving DecidableEq

/-- Build the snapshot entry of one driver at one tick (source lines 304-315). -/
def mkEntry (code : String) (d : Tick) : Entry :=
  { code := code,
    dist := pyRoundTo 1 d.dist,
    x := pyRoundTo 1 d.x,
    y := pyRoundTo 1 d.y,
    lap := pyRound d.lap,
    relDist := pyRoundTo 1 d.relDist,
    tyre := pyRound d.tyre,
    speed := pyRound d.speed,
    gear := pyTrunc d.gear,
    drs := pyTrunc d.drs }

/-- The sort key of `snapshot.sort(key=lambda r: r["dist"], reverse=True)`:
descending rounded race distance.  Python's sort is stable also with
`reverse=True`, which `List.insertionSort` with this relation reproduces. -/
def distGe (a b : Entry) : Prop := b.dist ≤ a.dist

instance : DecidableRel distGe := fun a b => inferInstanceAs (Decidable (b.dist ≤ a.dist))

instance : IsTotal Entry distGe := ⟨fun a b => le_total b.dist a.dist⟩

instance : IsTrans Entry distGe := ⟨fun _ _ _ h h' => le_trans h' h⟩

/-- The sort `snapshot.sort(key=lambda r: r["dist"], reverse=True)` of
source line 323. -/
def sortSnapshot (l : List Entry) : List Entry :=
  List.insertionSort distGe l

/-- The per-driver state stored in a frame's `drivers` mapping (source lines
334-345), including the 1-based `position`. -/
structure DriverState where
  x : ℚ
  y : ℚ
  dist : ℚ
  lap : ℤ
  relDist : ℚ
  tyre : ℤ
  position : ℕ
  speed : ℤ
  gear : ℤ
  drs : ℤ
deriving DecidableEq

/-- Project an entry to the driver state with a given position. -/
def entryState (e : Entry) (pos : ℕ) : DriverState :=
  { x := e.x, y := e.y, dist := e.dist, lap := e.lap, relDist := e.relDist,
    tyre := e.tyre, position := pos, speed := e.speed, gear := e.gear, drs := e.drs }

/-- One output frame: rounded tick time, the leader's lap, and the drivers
mapping in ranking order (a Python dict keyed by the distinct driver codes,
modelled as an association list). -/
structure Frame where
  t : ℚ
  lap : ℤ
  drivers : List (String × DriverState)
deriving DecidableEq

/-- Assemble one frame from one tick's snapshot (source lines 317-351): skip
the tick when the snapshot is empty, otherwise sort by descending rounded
race distance and assign `position = idx + 1`.  The source tests emptiness
before sorting; sorting preserves emptiness, so the guard is equivalently
placed on the sorted list. -/
def mkFrame (τ : ℚ) (snapshot : List Entry) : Option Frame :=
  match sortSnapshot snapshot with
  | [] => none
  | leader :: rest =>
    some { t := pyRoundTo 2 τ,
           lap := leader.lap,
           drivers := (leader :: rest).enum.map fun p => (p.2.code, entryState p.2 (p.1 + 1)) }

/-- The frame loop (source lines 300-351): for each tick index `i`, gather
each driver's resampled channel values at `i` and assemble the frame. -/
def assembleFrames (resampled : List (String × List Tick)) (timeline : List ℚ) :
    List Frame :=
  timeline.enum.filterMap fun p =>
    mkFrame p.2 (resampled.filterMap fun cd => (cd.2[p.1]?).map (mkEntry cd.1))

/-- One track-status interval of the output (source lines 289-293). -/
structure StatusInterval where
  status : String
  startTime : ℚ
  endTime : Option ℚ
deriving DecidableEq

/-- One iteration of the track-status loop (source lines 280-293): shift the
event time by `-global_t_min`, close the previous interval at the new start
(`formatted_track_statuses[-1]['end_time'] = start_time`), and append the new
open interval. -/
def statusStep (gmin : ℚ) (acc : List StatusInterval) (ev : ℚ × String) :
    List StatusInterval :=
  let start := ev.1 - gmin
  let acc' := match acc.getLast? with
    | none => acc
    | some last => acc.dropLast ++ [{ last with endTime := some start }]
  acc' ++ [{ status := ev.2, startTime := start, endTime := none }]

/-- The track-status loop over the chronological event list. -/
def buildStatuses (gmin : ℚ) (events : List (ℚ × String)) : List StatusInterval :=
  events.foldl (statusStep gmin) []

/-- Lookahead characterisation of `buildStatuses`, used in proofs: each event
opens an interval ending at the next event's (shifted) start time. -/
def statusesAux (gmin : ℚ) : List (ℚ × String) → List StatusInterval
  | [] => []
  | (t, s) :: rest =>
    { status := s, startTime := t - gmin,
      endTime := rest.head?.map (fun ev => ev.1 - gmin) } :: statusesAux gmin rest

/-- Countdown walk of Python strided slicing: keep an element when the
counter is 0 and reset it to `k - 1`, otherwise decrement. -/
def sliceGo {α : Type} (k : ℕ) : ℕ → List α → List α
  | _, [] => []
  | 0, a :: l => a :: sliceGo k (k - 1) l
  | n + 1, _ :: l => sliceGo k n l

/-- Python `frames[::k]` for a stride `k ≥ 1`: the elements at indices
`0, k, 2k, …` in order.  (`k = 0` raises in Python and is never passed: the
source guards with `frame_skip > 1`.) -/
def pySliceStep {α : Type} (k : ℕ) (l : List α) : List α :=
  sliceGo k 0 l

/-- The engine's output payload (`driver_colors` is produced by an external
collaborator and is not part of the engine's own computation). -/
structure Output where
  frames : List Frame
  trackStatuses : List StatusInterval
deriving DecidableEq

/-- The whole engine (`get_race_telemetry` without the cache/S3/logging I/O):
extract every driver's trace and the global time bounds, build the timeline,
resample, build the status intervals, assemble the frames, and finally apply
the `frame_skip` stride (`data["frames"][::frame_skip]` when
`frame_skip > 1`).  When no driver yields a trace the source crashes with an
uncaught `TypeError` (`np.arange(None, None, DT)`): modelled as `none`. -/
def engine (entities : List (String × List (Lap ℚ))) (events : List (ℚ × String))
    (frameSkip : ℕ) : Option Output :=
  let ex := extractDriverData entities
  match ex.2.1, ex.2.2 with
  | some gmin, some gmax =>
    let timeline := npTimeline gmin gmax
    let resampled := ex.1.map fun ct => (ct.1, resampleTrace gmin timeline ct.2)
    let frames := assembleFrames resampled timeline
    some { frames := if 1 < frameSkip then pySliceStep frameSkip frames else frames,
           trackStatuses := buildStatuses gmin events }
  | _, _ => none

/-- The snapshot the frame loop gathers at tick `τ`, expressed directly over
the extracted driver data (proved below to agree with the indexed gathering
in `assembleFrames`). -/
def snapshotAt (gmin : ℚ) (dd : List (String × List (TraceSample ℚ))) (τ : ℚ) :
    List Entry :=
  dd.map fun ct => mkEntry ct.1 (sampleTick (shiftTrace gmin ct.2) τ)

/-- The channel values a trace sample contributes verbatim when a tick is
clamped to it (flat extrapolation). -/
def tickOfSample (s : TraceSample ℚ) : Tick :=
  { x := s.x, y := s.y, dist := s.dist, relDist := s.relDist, lap := s.lap,
    tyre := s.tyre, speed := s.speed, gear := s.gear, drs := s.drs }

/-- Executable check that a rational list is non-decreasing, used to discharge
chain hypotheses on concrete inputs. -/
def nondecGo (a : ℚ) : List ℚ → Bool
  | [] => true
  | b :: t => decide (a ≤ b) && nondecGo b t

/-- Boolean version of `List.Chain' (· ≤ ·)` on `List ℚ`. -/
def nondecQ : List ℚ → Bool
  | [] => true
  | a :: t => nondecGo a t

/-! ### Concrete instances used by the executable checks -/

/-- A raw sample with timestamp `t`, in-lap distance `d` and all other
channels zero. -/
def qs (t d : ℚ) : RawSample ℚ :=
  { t := t, x := 0, y := 0, dist := d, relDist := 0, speed := 0, gear := 0,
    drs := 0 }

/-- A one-lap input whose time span is exactly one tick. -/
def lapW : Lap ℚ :=
  { lapNumber := 1, compound := 2, samples := [qs 0 0, qs (1 / 25) 0] }

def c1ents : List (String × List (Lap ℚ)) := [("A", [lapW])]

def c1out : Output := (engine c1ents [] 1).getD { frames := [], trackStatuses := [] }

def c1frame : Frame := c1out.frames.getD 0 { t := 0, lap := 0, drivers := [] }

def c10pair : String × DriverState :=
  c1frame.drivers.getD 0
    ("", { x := 0, y := 0, dist := 0, lap := 0, relDist := 0, tyre := 0,
           position := 0, speed := 0, gear := 0, drs := 0 })

/-- Two identical entities inserted in the order B, A: every tick is an exact
distance tie. -/
def entsBA : List (String × List (Lap ℚ)) := [("B", [lapW]), ("A", [lapW])]

def cbaOut : Output := (engine entsBA [] 1).getD { frames := [], trackStatuses := [] }

def cbaFrame : Frame := cbaOut.frames.getD 0 { t := 0, lap := 0, drivers := [] }

/-- One entity whose time span is 1.5 ticks. -/
def lapSpan15 : Lap ℚ :=
  { lapNumber := 1, compound := 0, samples := [qs 0 0, qs (3 / 50) 0] }

def ents3 : List (String × List (Lap ℚ)) := [("A", [lapSpan15])]

/-- A lap whose in-lap distance decreases over time. -/
def lapBad : Lap ℚ :=
  { lapNumber := 1, compound := 0, samples := [qs 0 100, qs 1 0] }

def lapM1 : Lap ℚ := { lapNumber := 1, compound := 0, samples := [qs 0 0, qs 1 50] }

def lapM2 : Lap ℚ := { lapNumber := 2, compound := 0, samples := [qs 2 10, qs 3 60] }

def c4tr : List (TraceSample ℚ) := (extractTrace [lapM1, lapM2]).getD []

/-- One entity whose time span is half a tick. -/
def lapSpanHalf : Lap ℚ :=
  { lapNumber := 1, compound := 0, samples := [qs 0 0, qs (1 / 50) 0] }

def ents5 : List (String × List (Lap ℚ)) := [("A", [lapSpanHalf])]

/-- A sample whose speed channel holds the non-finite marker `none`. -/
def s6 : RawSample (Option ℚ) :=
  { t := 0, x := some 0, y := some 0, dist := 0, relDist := some 0,
    speed := none, gear := some 0, drs := some 0 }

def lap6 : Lap (Option ℚ) := { lapNumber := 1, compound := 0, samples := [s6] }

def c6tr : List (TraceSample (Option ℚ)) := (extractTrace [lap6]).getD []

/-- One entity spanning four ticks, for the stride check. -/
def lapL : Lap ℚ :=
  { lapNumber := 1, compound := 0, samples := [qs 0 0, qs (4 / 25) 0] }

def entsL : List (String × List (Lap ℚ)) := [("A", [lapL])]

def c8out1 : Output := (engine entsL [] 1).getD { frames := [], trackStatuses := [] }

def c8out2 : Output := (engine entsL [] 2).getD { frames := [], trackStatuses := [] }

def cs0 : TraceSample ℚ :=
  { t := 1, x := 5, y := 6, dist := 7, relDist := 0, lap := 1, tyre := 2,
    speed := 3, gear := 2, drs := 0 }

def cs1 : TraceSample ℚ :=
  { t := 2, x := 8, y := 9, dist := 10, relDist := 1, lap := 2, tyre := 2,
    speed := 4, gear := 3, drs := 1 }

end F1

namespace F1

/-! ### Infrastructure lemmas -/

theorem upsert_ne_nil {β : Type} (k : String) (v : β) (l : List (String × β)) :
    upsert k v l ≠ [] := by
  cases l with
  | nil => simp [upsert]
  | cons p rest =>
    obtain ⟨k', v'⟩ := p
    by_cases h : k' = k <;> simp [upsert, h]

theorem eddFold_inv (es : List (String × List (Lap ℚ)))
    (acc : List (String × List (TraceSample ℚ)) × Option ℚ × Option ℚ)
    (h1 : acc.2.1 = none ↔ acc.1 = []) (h2 : acc.2.2 = none ↔ acc.1 = []) :
    ((es.foldl eddStep acc).2.1 = none ↔ (es.foldl eddStep acc).1 = []) ∧
      ((es.foldl eddStep acc).2.2 = none ↔ (es.foldl eddStep acc).1 = []) := by
  induction es generalizing acc with
  | nil => exact ⟨h1, h2⟩
  | cons e es ih =>
    rw [List.foldl_cons]
    apply ih
    · unfold eddStep
      cases hx : extractTrace e.2 with
      | none => exact h1
      | some tr => simpa using (upsert_ne_nil e.1 tr acc.1)
    · unfold eddStep
      cases hx : extractTrace e.2 with
      | none => exact h2
      | some tr => simpa using (upsert_ne_nil e.1 tr acc.1)

theorem extractDriverData_none_iff (entities : List (String × List (Lap ℚ))) :
    ((extractDriverData entities).2.1 = none ↔ (extractDriverData entities).1 = []) ∧
      ((extractDriverData entities).2.2 = none ↔ (extractDriverData entities).1 = []) := by
  exact eddFold_inv entities ([], none, none) (by simp) (by simp)

theorem sliceGo_sublist {α : Type} (k : ℕ) :
    ∀ (l : List α) (n : ℕ), (sliceGo k n l).Sublist l := by
  intro l
  induction l with
  | nil => intro n; cases n <;> simp [sliceGo]
  | cons a t ih =>
    intro n
    cases n with
    | zero => exact (ih (k - 1)).cons₂ a
    | succ m => exact (ih m).cons a

theorem pySliceStep_sublist {α : Type} (k : ℕ) (l : List α) :
    (pySliceStep k l).Sublist l :=
  sliceGo_sublist k l 0

theorem engine_eq_of_extract {entities : List (String × List (Lap ℚ))}
    {ev : List (ℚ × String)} {k : ℕ} {dd : List (String × List (TraceSample ℚ))}
    {gmin gmax : ℚ}
    (h : extractDriverData entities = (dd, some gmin, some gmax)) :
    engine entities ev k =
      some { frames :=
               (if 1 < k then
                  pySliceStep k (assembleFrames
                    (dd.map fun ct => (ct.1, resampleTrace gmin (npTimeline gmin gmax) ct.2))
                    (npTimeline gmin gmax))
                else assembleFrames
                    (dd.map fun ct => (ct.1, resampleTrace gmin (npTimeline gmin gmax) ct.2))
                    (npTimeline gmin gmax)),
             trackStatuses := buildStatuses gmin ev } := by
  unfold engine
  rw [h]

theorem assembleFrames_resampled (gmin : ℚ) (dd : List (String × List (TraceSample ℚ)))
    (timeline : List ℚ) :
    assembleFrames (dd.map fun ct => (ct.1, resampleTrace gmin timeline ct.2)) timeline
      = timeline.filterMap fun τ => mkFrame τ (snapshotAt gmin dd τ) := by
  unfold assembleFrames
  have h1 : ∀ p ∈ timeline.enum,
      mkFrame p.2
          ((dd.map fun ct => (ct.1, resampleTrace gmin timeline ct.2)).filterMap
            fun cd => (cd.2[p.1]?).map (mkEntry cd.1))
        = (fun τ => mkFrame τ (snapshotAt gmin dd τ)) p.2 := by
    intro p hp
    have hτ : timeline[p.1]? = some p.2 := List.mem_enum_iff_getElem?.mp hp
    have h2 : ∀ ct ∈ dd,
        ((fun cd : String × List Tick => (cd.2[p.1]?).map (mkEntry cd.1)) ∘
          (fun ct : String × List (TraceSample ℚ) =>
            (ct.1, resampleTrace gmin timeline ct.2))) ct
          = ((some ∘ fun ct : String × List (TraceSample ℚ) =>
              mkEntry ct.1 (sampleTick (shiftTrace gmin ct.2) p.2)) ct) := by
      intro ct _
      simp [resampleTrace, hτ]
    rw [List.filterMap_map, List.filterMap_congr h2, List.filterMap_eq_map]
    rfl
  rw [List.filterMap_congr h1]
  have h3 := List.filterMap_map Prod.snd
    (fun τ => mkFrame τ (snapshotAt gmin dd τ)) timeline.enum
  rw [List.enum_map_snd] at h3
  rw [h3]
  rfl

theorem mkFrame_eq_some {τ : ℚ} {snap : List Entry} {f : Frame}
    (h : mkFrame τ snap = some f) :
    ∃ leader rest, sortSnapshot snap = leader :: rest ∧
      f.t = pyRoundTo 2 τ ∧ f.lap = leader.lap ∧
      f.drivers = (leader :: rest).enum.map
        (fun p => (p.2.code, entryState p.2 (p.1 + 1))) := by
  unfold mkFrame at h
  cases hs : sortSnapshot snap with
  | nil => rw [hs] at h; exact absurd h (by simp)
  | cons leader rest =>
    rw [hs] at h
    refine ⟨leader, rest, rfl, ?_, ?_, ?_⟩ <;>
      simp only [Option.some.injEq] at h <;> rw [← h]

theorem frames_mem {entities : List (String × List (Lap ℚ))} {ev : List (ℚ × String)}
    {k : ℕ} {out : Output} {f : Frame}
    (h : engine entities ev k = some out) (hf : f ∈ out.frames) :
    ∃ dd gmin gmax τ, extractDriverData entities = (dd, some gmin, some gmax) ∧
      τ ∈ npTimeline gmin gmax ∧ mkFrame τ (snapshotAt gmin dd τ) = some f := by
  rcases hE : extractDriverData entities with ⟨dd, og1, og2⟩
  cases og1 with
  | none =>
    simp only [engine, hE] at h
    exact absurd h (by simp)
  | some gmin =>
    cases og2 with
    | none =>
      simp only [engine, hE] at h
      exact absurd h (by simp)
    | some gmax =>
      rw [engine_eq_of_extract hE] at h
      obtain rfl := Option.some.inj h
      simp only at hf
      have hfull : f ∈ assembleFrames
          (dd.map fun ct => (ct.1, resampleTrace gmin (npTimeline gmin gmax) ct.2))
          (npTimeline gmin gmax) := by
        by_cases hk : 1 < k
        · rw [if_pos hk] at hf
          exact (pySliceStep_sublist k _).mem hf
        · rwa [if_neg hk] at hf
      rw [assembleFrames_resampled] at hfull
      obtain ⟨τ, hτ, hmk⟩ := List.mem_filterMap.mp hfull
      exact ⟨dd, gmin, gmax, τ, rfl, hτ, hmk⟩


theorem enumFrom_map_add_one {α : Type} (l : List α) :
    ∀ n : ℕ, (l.enumFrom n).map (fun p => p.1 + 1) = List.range' (n + 1) l.length := by
  induction l with
  | nil => intro n; simp
  | cons a t ih =>
    intro n
    simp only [List.enumFrom_cons, List.map_cons, List.length_cons, List.range'_succ]
    rw [ih (n + 1)]

theorem snapshotAt_map_code (gmin : ℚ) (dd : List (String × List (TraceSample ℚ)))
    (τ : ℚ) : (snapshotAt gmin dd τ).map (·.code) = dd.map Prod.fst := by
  unfold snapshotAt
  rw [List.map_map]
  rfl

theorem filter_dist_orderedInsert (d : ℚ) (a : Entry) (l : List Entry) :
    (List.orderedInsert distGe a l).filter (fun e => decide (e.dist = d))
      = if a.dist = d then a :: l.filter (fun e => decide (e.dist = d))
        else l.filter (fun e => decide (e.dist = d)) := by
  induction l with
  | nil => by_cases h : a.dist = d <;> simp [List.orderedInsert, h]
  | cons b t ih =>
    unfold List.orderedInsert
    by_cases hr : distGe a b
    · rw [if_pos hr]
      by_cases h : a.dist = d <;> simp [List.filter_cons, h]
    · rw [if_neg hr]
      have hb : a.dist < b.dist := lt_of_not_le hr
      by_cases h : a.dist = d
      · have hbd : ¬ b.dist = d := by rw [← h]; exact (ne_of_gt hb)
        simp [List.filter_cons, hbd, ih, h]
      · simp [List.filter_cons, ih, h]

theorem filter_dist_sortSnapshot (d : ℚ) (l : List Entry) :
    (sortSnapshot l).filter (fun e => decide (e.dist = d))
      = l.filter (fun e => decide (e.dist = d)) := by
  induction l with
  | nil => rfl
  | cons a t ih =>
    have ih' : (List.insertionSort distGe t).filter (fun e => decide (e.dist = d))
        = t.filter (fun e => decide (e.dist = d)) := ih
    show (List.orderedInsert distGe a (List.insertionSort distGe t)).filter _ = _
    rw [filter_dist_orderedInsert]
    by_cases h : a.dist = d <;> simp [h, List.filter_cons, ih']

theorem foldl_min_le (l : List ℚ) :
    ∀ a : ℚ, l.foldl min a ≤ a ∧ ∀ x ∈ l, l.foldl min a ≤ x := by
  induction l with
  | nil => intro a; simp
  | cons b t ih =>
    intro a
    have h := ih (min a b)
    refine ⟨le_trans h.1 (min_le_left a b), ?_⟩
    intro x hx
    rcases List.mem_cons.mp hx with rfl | hx
    · exact le_trans h.1 (min_le_right a _)
    · exact h.2 x hx

theorem listMinQ_le {l : List ℚ} {x : ℚ} (hx : x ∈ l) : listMinQ l ≤ x := by
  cases l with
  | nil => cases hx
  | cons a t =>
    rcases List.mem_cons.mp hx with rfl | hx
    · exact (foldl_min_le t _).1
    · exact (foldl_min_le t a).2 x hx

theorem le_foldl_max (l : List ℚ) :
    ∀ a : ℚ, a ≤ l.foldl max a ∧ ∀ x ∈ l, x ≤ l.foldl max a := by
  induction l with
  | nil => intro a; simp
  | cons b t ih =>
    intro a
    have h := ih (max a b)
    refine ⟨le_trans (le_max_left a b) h.1, ?_⟩
    intro x hx
    rcases List.mem_cons.mp hx with rfl | hx
    · exact le_trans (le_max_right a _) h.1
    · exact h.2 x hx

theorem le_listMaxQ {l : List ℚ} {x : ℚ} (hx : x ∈ l) : x ≤ listMaxQ l := by
  cases l with
  | nil => cases hx
  | cons a t =>
    rcases List.mem_cons.mp hx with rfl | hx
    · exact (le_foldl_max t _).1
    · exact (le_foldl_max t a).2 x hx

theorem foldl_max_map_sub (t : List ℚ) :
    ∀ a c : ℚ, (t.map (fun x => x - c)).foldl max (a - c) = t.foldl max a - c := by
  induction t with
  | nil => intro a c; rfl
  | cons b t ih =>
    intro a c
    simp only [List.map_cons, List.foldl_cons]
    rw [max_sub_sub_right a b c, ih]

theorem listMaxQ_map_sub (c : ℚ) (l : List ℚ) (h : l ≠ []) :
    listMaxQ (l.map (fun x => x - c)) = listMaxQ l - c := by
  cases l with
  | nil => exact absurd rfl h
  | cons a t =>
    show (t.map (fun x => x - c)).foldl max (a - c) = t.foldl max a - c
    exact foldl_max_map_sub t a c


theorem chain_append_of_bounds {l1 l2 : List ℚ} {c : ℚ}
    (h1 : l1.Chain' (· ≤ ·)) (h2 : l2.Chain' (· ≤ ·))
    (hb1 : ∀ x ∈ l1, x ≤ c) (hb2 : ∀ y ∈ l2, c ≤ y) :
    (l1 ++ l2).Chain' (· ≤ ·) := by
  refine h1.append h2 ?_
  intro x hx y hy
  have hx' : x ∈ l1 := by
    cases hgl : l1.getLast? with
    | none => rw [hgl] at hx; cases hx
    | some a =>
      rw [hgl] at hx
      cases hx
      exact List.mem_of_getLast?_eq_some hgl
  have hy' : y ∈ l2 := List.mem_of_mem_head? hy
  exact le_trans (hb1 x hx') (hb2 y hy')

theorem processLaps_dist (laps : List (Lap ℚ)) :
    ∀ total : ℚ,
      (∀ lap ∈ laps, (lap.samples.map (·.dist)).Chain' (· ≤ ·)) →
      ((processLaps total laps).map (·.dist)).Chain' (· ≤ ·) ∧
        ∀ s ∈ processLaps total laps, total ≤ s.dist := by
  induction laps with
  | nil => intro total _; simp [processLaps]
  | cons lap rest ih =>
    intro total hlap
    have hrest : ∀ l ∈ rest, (l.samples.map (·.dist)).Chain' (· ≤ ·) :=
      fun l hl => hlap l (List.mem_cons_of_mem _ hl)
    have hthis : (lap.samples.map (·.dist)).Chain' (· ≤ ·) :=
      hlap lap (List.mem_cons_self lap rest)
    cases hs : lap.samples with
    | nil =>
      have := ih total hrest
      simpa [processLaps, hs] using this
    | cons s ss =>
      rw [hs] at hthis
      have hred : processLaps total (lap :: rest)
          = ((s :: ss).map fun smp =>
              ({ t := smp.t, x := smp.x, y := smp.y,
                 dist := total + (smp.dist
                   - listMinQ ((s :: ss).map (·.dist))),
                 relDist := smp.relDist,
                 lap := lap.lapNumber, tyre := lap.compound,
                 speed := smp.speed, gear := smp.gear,
                 drs := smp.drs } : TraceSample ℚ))
            ++ processLaps (total + listMaxQ (((s :: ss).map (·.dist)).map
                 (· - listMinQ ((s :: ss).map (·.dist))))) rest := by
        simp only [processLaps, hs]
      set ds := (s :: ss).map (·.dist) with hds
      set minD := listMinQ ds with hminD
      set lapLen := listMaxQ (ds.map (· - minD)) with hlapLen
      have hlen0 : 0 ≤ lapLen := by
        have h1 : s.dist ∈ ds := by
          rw [hds]; exact List.mem_map_of_mem _ (List.mem_cons_self s ss)
        have h2 : minD ≤ s.dist := listMinQ_le h1
        have h3 : s.dist - minD ∈ ds.map (· - minD) := List.mem_map_of_mem _ h1
        have h4 : s.dist - minD ≤ lapLen := le_listMaxQ h3
        linarith
      have hbound : ∀ smp : RawSample ℚ, smp ∈ s :: ss →
          total ≤ total + (smp.dist - minD) ∧
            total + (smp.dist - minD) ≤ total + lapLen := by
        intro smp hsmp
        have h1 : smp.dist ∈ ds := by rw [hds]; exact List.mem_map_of_mem _ hsmp
        have h2 : minD ≤ smp.dist := listMinQ_le h1
        have h3 : smp.dist - minD ≤ lapLen :=
          le_listMaxQ (List.mem_map_of_mem _ h1)
        constructor <;> linarith
      obtain ⟨ihc, ihb⟩ := ih (total + lapLen) hrest
      rw [hred]
      constructor
      · rw [List.map_append, List.map_map]
        refine chain_append_of_bounds (c := total + lapLen) ?_ ihc ?_ ?_
        · rw [show ((fun s : TraceSample ℚ => s.dist) ∘ fun smp : RawSample ℚ =>
              ({ t := smp.t, x := smp.x, y := smp.y,
                 dist := total + (smp.dist - minD), relDist := smp.relDist,
                 lap := lap.lapNumber, tyre := lap.compound,
                 speed := smp.speed, gear := smp.gear,
                 drs := smp.drs } : TraceSample ℚ))
              = fun smp : RawSample ℚ => total + (smp.dist - minD) from rfl]
          rw [List.chain'_map]
          have := (List.chain'_map (fun smp : RawSample ℚ => smp.dist)
            (l := s :: ss)).mp hthis
          refine this.imp ?_
          intro a b hab
          show total + (a.dist - minD) ≤ total + (b.dist - minD)
          linarith
        · intro x hx
          obtain ⟨smp, hsmp, rfl⟩ := List.mem_map.mp hx
          exact (hbound smp hsmp).2
        · intro y hy
          obtain ⟨s2, hs2, rfl⟩ := List.mem_map.mp hy
          exact ihb s2 hs2
      · intro s2 hs2
        rcases List.mem_append.mp hs2 with hmem | hmem
        · obtain ⟨smp, hsmp, rfl⟩ := List.mem_map.mp hmem
          exact (hbound smp hsmp).1
        · have := ihb s2 hmem
          linarith


theorem extractTrace_of_sorted {α : Type} {laps : List (Lap α)} {tr : List (TraceSample α)}
    (ht : ((processLaps 0 laps).map (·.t)).Chain' (· ≤ ·))
    (h : extractTrace laps = some tr) : tr = processLaps 0 laps := by
  unfold extractTrace at h
  cases hp : processLaps 0 laps with
  | nil => rw [hp] at h; cases h
  | cons s ss =>
    rw [hp] at h
    have htr : tr = sortByT (s :: ss) := (Option.some.inj h).symm
    rw [hp] at ht
    have hchain : List.Chain' leT (s :: ss) :=
      (List.chain'_map (fun smp : TraceSample α => smp.t)).mp ht
    have hsorted : List.Sorted leT (s :: ss) := List.chain'_iff_pairwise.mp hchain
    rw [htr]
    exact hsorted.insertionSort_eq

theorem statusFold_eq (gmin : ℚ) (evs : List (ℚ × String)) :
    ∀ (pre : List StatusInterval) (cur : StatusInterval),
      evs.foldl (statusStep gmin) (pre ++ [cur])
        = match evs.head? with
          | none => pre ++ [cur]
          | some e => pre ++ ({ cur with endTime := some (e.1 - gmin) } :: statusesAux gmin evs) := by
  induction evs with
  | nil => intro pre cur; rfl
  | cons e rest ih =>
    intro pre cur
    obtain ⟨t, s⟩ := e
    rw [List.foldl_cons]
    have hstep : statusStep gmin (pre ++ [cur]) (t, s)
        = (pre ++ [{ cur with endTime := some (t - gmin) }])
            ++ [{ status := s, startTime := t - gmin, endTime := none }] := by
      unfold statusStep
      rw [List.getLast?_concat, List.dropLast_concat]
    rw [hstep, ih]
    cases rest with
    | nil => simp [statusesAux]
    | cons e2 r2 =>
      obtain ⟨t2, s2⟩ := e2
      simp [statusesAux, List.append_assoc]

theorem buildStatuses_eq (gmin : ℚ) (evs : List (ℚ × String)) :
    buildStatuses gmin evs = statusesAux gmin evs := by
  cases evs with
  | nil => rfl
  | cons e rest =>
    obtain ⟨t, s⟩ := e
    unfold buildStatuses
    rw [List.foldl_cons]
    have hstep : statusStep gmin [] (t, s)
        = [] ++ [{ status := s, startTime := t - gmin, endTime := none }] := by
      unfold statusStep
      simp
    rw [hstep, statusFold_eq]
    cases hr : rest with
    | nil => simp [statusesAux]
    | cons e2 r2 =>
      obtain ⟨t2, s2⟩ := e2
      simp [statusesAux]

theorem statusesAux_map_start (gmin : ℚ) (evs : List (ℚ × String)) :
    (statusesAux gmin evs).map (·.startTime) = evs.map (fun e => e.1 - gmin) := by
  induction evs with
  | nil => rfl
  | cons e rest ih => obtain ⟨t, s⟩ := e; simp [statusesAux, ih]

theorem statusesAux_map_status (gmin : ℚ) (evs : List (ℚ × String)) :
    (statusesAux gmin evs).map (·.status) = evs.map (·.2) := by
  induction evs with
  | nil => rfl
  | cons e rest ih => obtain ⟨t, s⟩ := e; simp [statusesAux, ih]

theorem statusesAux_contiguous (gmin : ℚ) (evs : List (ℚ × String)) :
    ∀ (i : ℕ) (a b : StatusInterval), (statusesAux gmin evs)[i]? = some a →
      (statusesAux gmin evs)[i + 1]? = some b → a.endTime = some b.startTime := by
  induction evs with
  | nil => intro i a b ha _; simp [statusesAux] at ha
  | cons e rest ih =>
    intro i a b ha hb
    obtain ⟨t, s⟩ := e
    cases i with
    | zero =>
      cases rest with
      | nil => simp [statusesAux] at hb
      | cons e2 r2 =>
        obtain ⟨t2, s2⟩ := e2
        simp [statusesAux] at ha hb
        rw [← ha, ← hb]
    | succ i =>
      simp only [statusesAux, List.getElem?_cons_succ] at ha hb
      exact ih i a b ha hb

theorem statusesAux_last (gmin : ℚ) (evs : List (ℚ × String)) :
    ∀ a : StatusInterval, (statusesAux gmin evs).getLast? = some a → a.endTime = none := by
  induction evs with
  | nil => intro a ha; simp [statusesAux] at ha
  | cons e rest ih =>
    intro a ha
    obtain ⟨t, s⟩ := e
    cases hr : rest with
    | nil =>
      rw [hr] at ha
      simp [statusesAux] at ha
      rw [← ha]
    | cons e2 r2 =>
      obtain ⟨t2, s2⟩ := e2
      rw [hr] at ha ih
      rw [show statusesAux gmin ((t, s) :: (t2, s2) :: r2)
            = { status := s, startTime := t - gmin, endTime := some (t2 - gmin) }
              :: { status := s2, startTime := t2 - gmin,
                   endTime := r2.head?.map (fun ev => ev.1 - gmin) }
              :: statusesAux gmin r2 from rfl, List.getLast?_cons_cons] at ha
      exact ih a ha

theorem sliceGo_shift {α : Type} (k : ℕ) :
    ∀ (l : List α) (n : ℕ), sliceGo k n l = sliceGo k 0 (l.drop n) := by
  intro l
  induction l with
  | nil => intro n; cases n <;> rfl
  | cons a t ih =>
    intro n
    cases n with
    | zero => rfl
    | succ m =>
      show sliceGo k m t = sliceGo k 0 ((a :: t).drop (m + 1))
      rw [List.drop_succ_cons]
      exact ih m

theorem pySliceStep_getElem_aux {α : Type} (k : ℕ) (hk : 1 ≤ k) :
    ∀ (n : ℕ) (l : List α), l.length ≤ n → ∀ i : ℕ,
      (pySliceStep k l)[i]? = l[i * k]? := by
  intro n
  induction n with
  | zero =>
    intro l hl i
    have : l = [] := List.length_eq_zero.mp (Nat.le_zero.mp hl)
    subst this
    simp [pySliceStep, sliceGo]
  | succ n ih =>
    intro l hl i
    cases l with
    | nil => simp [pySliceStep, sliceGo]
    | cons a t =>
      show (sliceGo k 0 (a :: t))[i]? = _
      rw [show sliceGo k 0 (a :: t) = a :: sliceGo k (k - 1) t from rfl,
        sliceGo_shift]
      cases i with
      | zero => simp
      | succ i =>
        have hlen : (t.drop (k - 1)).length ≤ n := by
          rw [List.length_drop]
          have : t.length ≤ n := by
            have := hl
            simp only [List.length_cons] at this
            omega
          omega
        rw [List.getElem?_cons_succ]
        rw [show (sliceGo k 0 (List.drop (k - 1) t))[i]?
              = (List.drop (k - 1) t)[i * k]? from ih (t.drop (k - 1)) hlen i]
        rw [List.getElem?_drop]
        have he : (i + 1) * k = (k - 1 + i * k) + 1 := by
          have h2 : (i + 1) * k = i * k + k := by ring
          have := hk
          omega
        rw [he, List.getElem?_cons_succ]

theorem pySliceStep_getElem {α : Type} (k : ℕ) (hk : 1 ≤ k) (l : List α) (i : ℕ) :
    (pySliceStep k l)[i]? = l[i * k]? :=
  pySliceStep_getElem_aux k hk l.length l le_rfl i

theorem npInterp_le_first (x : ℚ) (p : ℚ × ℚ) (rest : List (ℚ × ℚ)) (h : x ≤ p.1) :
    npInterp x (p :: rest) = p.2 := by
  cases rest with
  | nil => rfl
  | cons q r =>
    show npInterpGo x p (q :: r) = p.2
    unfold npInterpGo
    rw [if_pos h]

theorem chain_fst_head_le_last :
    ∀ (l : List (ℚ × ℚ)) (p q : ℚ × ℚ),
      (p :: l).Chain' (fun a b => a.1 ≤ b.1) → (p :: l).getLast? = some q →
        p.1 ≤ q.1 := by
  intro l
  induction l with
  | nil =>
    intro p q _ hlast
    have : p = q := by simpa using hlast
    rw [this]
  | cons b t ih =>
    intro p q hchain hlast
    have h1 : p.1 ≤ b.1 := (List.chain'_cons.mp hchain).1
    have h2 : (b :: t).getLast? = some q := by
      rwa [List.getLast?_cons_cons] at hlast
    exact le_trans h1 (ih b q (List.chain'_cons.mp hchain).2 h2)

theorem npInterpGo_last (x : ℚ) :
    ∀ (l : List (ℚ × ℚ)) (p q : ℚ × ℚ),
      (p :: l).Chain' (fun a b => a.1 ≤ b.1) → (p :: l).getLast? = some q →
        q.1 < x → npInterpGo x p l = q.2 := by
  intro l
  induction l with
  | nil =>
    intro p q _ hlast _
    have : p = q := by simpa using hlast
    rw [this]
    rfl
  | cons b t ih =>
    intro p q hchain hlast hx
    have hpq : p.1 ≤ q.1 := chain_fst_head_le_last _ p q hchain hlast
    have htail : (b :: t).Chain' (fun a b => a.1 ≤ b.1) :=
      (List.chain'_cons.mp hchain).2
    have hlast2 : (b :: t).getLast? = some q := by
      rwa [List.getLast?_cons_cons] at hlast
    have hbq : b.1 ≤ q.1 := chain_fst_head_le_last _ b q htail hlast2
    show npInterpGo x p (b :: t) = q.2
    unfold npInterpGo
    rw [if_neg (by linarith), if_neg (by linarith)]
    exact ih b q htail hlast2 hx

theorem npInterp_last (x : ℚ) (l : List (ℚ × ℚ)) (q : ℚ × ℚ)
    (hc : l.Chain' (fun a b => a.1 ≤ b.1)) (hl : l.getLast? = some q)
    (hx : q.1 < x) : npInterp x l = q.2 := by
  cases l with
  | nil => cases hl
  | cons p t => exact npInterpGo_last x t p q hc hl hx

theorem npInterp_first_channel (τ : ℚ) (s0 : TraceSample ℚ)
    (rest : List (TraceSample ℚ)) (h : τ ≤ s0.t) (g : TraceSample ℚ → ℚ) :
    npInterp τ ((s0 :: rest).map fun s => (s.t, g s)) = g s0 := by
  rw [List.map_cons]
  exact npInterp_le_first τ (s0.t, g s0) _ h

theorem npInterp_last_channel (τ : ℚ) (l : List (TraceSample ℚ))
    (sl : TraceSample ℚ) (hc : l.Chain' (fun a b => a.t ≤ b.t))
    (hl : l.getLast? = some sl) (hτ : sl.t < τ) (g : TraceSample ℚ → ℚ) :
    npInterp τ (l.map fun s => (s.t, g s)) = g sl := by
  apply npInterp_last τ _ (sl.t, g sl) ?_ ?_ hτ
  · exact (List.chain'_map _).mpr hc
  · rw [List.getLast?_map, hl]
    rfl

theorem sampleTick_first (s0 : TraceSample ℚ) (rest : List (TraceSample ℚ))
    (τ : ℚ) (h : τ ≤ s0.t) : sampleTick (s0 :: rest) τ = tickOfSample s0 := by
  unfold sampleTick tickOfSample
  simp only [npInterp_first_channel τ s0 rest h]

theorem sampleTick_last (l : List (TraceSample ℚ)) (sl : TraceSample ℚ) (τ : ℚ)
    (hc : l.Chain' (fun a b => a.t ≤ b.t)) (hl : l.getLast? = some sl)
    (hτ : sl.t < τ) : sampleTick l τ = tickOfSample sl := by
  unfold sampleTick tickOfSample
  simp only [npInterp_last_channel τ l sl hc hl hτ]


theorem filter_snd_enumFrom {α : Type} (q : α → Bool) (l : List α) :
    ∀ n : ℕ, ((l.enumFrom n).filter (fun p => q p.2)).map Prod.snd = l.filter q := by
  induction l with
  | nil => intro n; rfl
  | cons a t ih =>
    intro n
    simp only [List.enumFrom_cons, List.filter_cons]
    cases hq : q a with
    | true => simp [hq, ih (n + 1)]
    | false => simp [hq, ih (n + 1)]

theorem processLaps_map_speed {α : Type} (laps : List (Lap α)) :
    ∀ total : ℚ, (processLaps total laps).map (·.speed)
      = (laps.map (fun l => l.samples.map (·.speed))).flatten := by
  induction laps with
  | nil => intro total; rfl
  | cons lap rest ih =>
    intro total
    cases hs : lap.samples with
    | nil => simp [processLaps, hs, ih]
    | cons s ss =>
      simp only [processLaps, hs, List.map_cons, List.map_append, List.map_map,
        List.flatten_cons, ih]
      rfl


theorem nondecGo_iff (t : List ℚ) :
    ∀ a : ℚ, nondecGo a t = true ↔ (a :: t).Chain' (· ≤ ·) := by
  induction t with
  | nil => intro a; simp [nondecGo]
  | cons b t ih =>
    intro a
    rw [show nondecGo a (b :: t) = (decide (a ≤ b) && nondecGo b t) from rfl,
      List.chain'_cons, ← ih b]
    simp

theorem nondecQ_iff (l : List ℚ) : nondecQ l = true ↔ l.Chain' (· ≤ ·) := by
  cases l with
  | nil => simp [nondecQ]
  | cons a t => exact nondecGo_iff t a

/-! ### Claim theorems -/

section

attribute [local semireducible] Rat.add Rat.mul Rat.inv Rat.sub Rat.ofScientific

/-- C1: in every frame the engine emits, the `position` values across the
frame's drivers mapping are exactly `1, 2, …, N` in ranking order, where `N`
is the number of entities present in the mapping — each position assigned
once, no duplicates, no gaps. -/
theorem c1_positions_dense (entities : List (String × List (Lap ℚ)))
    (ev : List (ℚ × String)) (k : ℕ) (out : Output) (f : Frame)
    (h : engine entities ev k = some out) (hf : f ∈ out.frames) :
    f.drivers.map (fun p => p.2.position) = List.range' 1 f.drivers.length := by
  obtain ⟨dd, gmin, gmax, τ, hE, hτ, hmk⟩ := frames_mem h hf
  obtain ⟨leader, rest, hs, ht, hlap, hdr⟩ := mkFrame_eq_some hmk
  have h1 : f.drivers.map (fun p => p.2.position)
      = (leader :: rest).enum.map (fun p => p.1 + 1) := by
    rw [hdr, List.map_map]
    rfl
  have h2 : f.drivers.length = (leader :: rest).length := by
    rw [hdr, List.length_map, List.enum_length]
  rw [h1, h2]
  exact enumFrom_map_add_one (leader :: rest) 0

/-- Witness for `c1_positions_dense` at a concrete one-driver race. -/
theorem c1_positions_dense_witness :
    engine c1ents [] 1 = some c1out ∧
      c1frame.drivers.map (fun p => p.2.position)
        = List.range' 1 c1frame.drivers.length :=
  ⟨by decide, c1_positions_dense c1ents [] 1 c1out c1frame (by decide) (by decide)⟩

/-- C3 (counterexample): with one entity whose global time span is
`3/50 = 1.5 · DT`, the engine emits 2 frames, while
`⌊span / DT⌋ = 1` — the tick count is the ceiling, not the floor, of
`span / DT`. -/
theorem c3_counterexample :
    (extractDriverData ents3).2.1 = some 0 ∧
      (extractDriverData ents3).2.2 = some (3 / 50) ∧
      (engine ents3 [] 1).map (fun o => o.frames.length) = some 2 ∧
      (⌊((3 / 50 - 0 : ℚ)) / DT⌋).toNat = 1 := by
  refine ⟨by decide, by decide, by decide, by decide⟩

/-- C3 (amended): for global bounds with span at least `DT`, the timeline is
`0, DT, 2·DT, …` with exactly `⌈span / DT⌉` ticks (not `⌊span / DT⌋`),
starting at 0, evenly spaced by `DT`, strictly increasing, and every tick is
strictly below the span. -/
theorem c3_timeline_ceil (gmin gmax : ℚ) (h : DT ≤ gmax - gmin) :
    (npTimeline gmin gmax).length = (⌈(gmax - gmin) / DT⌉).toNat ∧
      (npTimeline gmin gmax).head? = some 0 ∧
      (npTimeline gmin gmax).Chain' (fun x y => y = x + DT) ∧
      (npTimeline gmin gmax).Pairwise (· < ·) ∧
      ∀ x ∈ npTimeline gmin gmax, x < gmax - gmin := by
  have hDT : (0 : ℚ) < DT := by norm_num [DT]
  have hq1 : 1 ≤ (gmax - gmin) / DT := (one_le_div hDT).mpr h
  have hceil1 : (1 : ℤ) ≤ ⌈(gmax - gmin) / DT⌉ := by
    calc (1 : ℤ) = ⌈(1 : ℚ)⌉ := by norm_num
    _ ≤ ⌈(gmax - gmin) / DT⌉ := Int.ceil_le_ceil hq1
  have hceil0 : (0 : ℤ) ≤ ⌈(gmax - gmin) / DT⌉ := le_trans (by norm_num) hceil1
  obtain ⟨m, hm⟩ : ∃ m, (⌈(gmax - gmin) / DT⌉).toNat = m + 1 :=
    ⟨(⌈(gmax - gmin) / DT⌉).toNat - 1, by omega⟩
  have hform : npTimeline gmin gmax
      = (List.range (m + 1)).map (fun i : ℕ => (i : ℚ) * DT) := by
    show (List.range (⌈(gmax - gmin) / DT⌉).toNat).map (fun i : ℕ => (i : ℚ) * DT)
        = (List.range (m + 1)).map (fun i : ℕ => (i : ℚ) * DT)
    rw [hm]
  refine ⟨?_, ?_, ?_, ?_, ?_⟩
  · rw [hform, List.length_map, List.length_range, hm]
  · rw [hform, List.range_succ_eq_map]
    simp
  · rw [hform, List.chain'_map]
    refine (List.chain'_range_succ _ m).mpr ?_
    intro i _
    show ((i + 1 : ℕ) : ℚ) * DT = (i : ℚ) * DT + DT
    push_cast
    ring
  · rw [hform, List.pairwise_map]
    refine (List.pairwise_lt_range (m + 1)).imp ?_
    intro i j hij
    have hij' : (i : ℚ) < (j : ℚ) := by exact_mod_cast hij
    exact mul_lt_mul_of_pos_right hij' hDT
  · intro x hx
    rw [hform] at hx
    obtain ⟨i, hi, rfl⟩ := List.mem_map.mp hx
    have hin : i < m + 1 := List.mem_range.mp hi
    have hiz : (i : ℤ) < ⌈(gmax - gmin) / DT⌉ := by
      have h0 := Int.toNat_of_nonneg hceil0
      omega
    have hlt : (i : ℚ) < (gmax - gmin) / DT := by
      have h1 : (⌈(gmax - gmin) / DT⌉ : ℚ) < (gmax - gmin) / DT + 1 :=
        Int.ceil_lt_add_one ((gmax - gmin) / DT)
      have h2 : ((i : ℤ) : ℚ) + 1 ≤ (⌈(gmax - gmin) / DT⌉ : ℚ) := by
        exact_mod_cast hiz
      push_cast at h2
      linarith
    have h3 := mul_lt_mul_of_pos_right hlt hDT
    rw [div_mul_cancel₀ (gmax - gmin) (ne_of_gt hDT)] at h3
    exact h3

/-- Witness for `c3_timeline_ceil` at concrete bounds spanning 1.5 ticks. -/
theorem c3_timeline_ceil_witness :
    DT ≤ (3 / 50 : ℚ) - 0 ∧
      ((npTimeline 0 (3 / 50)).length = (⌈((3 / 50 : ℚ) - 0) / DT⌉).toNat ∧
        (npTimeline 0 (3 / 50)).head? = some 0 ∧
        (npTimeline 0 (3 / 50)).Chain' (fun x y => y = x + DT) ∧
        (npTimeline 0 (3 / 50)).Pairwise (· < ·) ∧
        ∀ x ∈ npTimeline 0 (3 / 50), x < (3 / 50 : ℚ) - 0) :=
  ⟨by decide, c3_timeline_ceil 0 (3 / 50) (by decide)⟩

/-- C4 (counterexample): a lap whose in-lap distance decreases over time
yields an extracted trace whose race-distance channel is not non-decreasing:
the extractor applies no monotonicity correction. -/
theorem c4_counterexample :
    (extractTrace [lapBad]).map (fun tr => tr.map (·.dist)) = some [100, 0] ∧
      ¬ (([100, 0] : List ℚ).Chain' (· ≤ ·)) := by
  refine ⟨by decide, ?_⟩
  intro hc
  exact absurd ((nondecQ_iff _).mpr hc) (by decide)

/-- C4 (amended): if every lap's distance channel is non-decreasing in its
own sample order and the lap-ordered concatenation is already non-decreasing
in time (laps chronological, non-overlapping), then the extracted trace's
race-distance channel is non-decreasing in time-sorted order. -/
theorem c4_race_distance_monotone (laps : List (Lap ℚ)) (tr : List (TraceSample ℚ))
    (hlap : ∀ lap ∈ laps, (lap.samples.map (·.dist)).Chain' (· ≤ ·))
    (ht : ((processLaps 0 laps).map (·.t)).Chain' (· ≤ ·))
    (h : extractTrace laps = some tr) :
    (tr.map (·.dist)).Chain' (· ≤ ·) := by
  rw [extractTrace_of_sorted ht h]
  exact (processLaps_dist laps 0 hlap).1

/-- Witness for `c4_race_distance_monotone` on a two-lap entity. -/
theorem c4_race_distance_monotone_witness :
    extractTrace [lapM1, lapM2] = some c4tr ∧
      (c4tr.map (·.dist)).Chain' (· ≤ ·) :=
  ⟨by decide,
   c4_race_distance_monotone [lapM1, lapM2] c4tr
     (by
       intro lap hl
       rcases List.mem_cons.mp hl with rfl | hl
       · exact (nondecQ_iff _).mp (by decide)
       rcases List.mem_cons.mp hl with rfl | hl
       · exact (nondecQ_iff _).mp (by decide)
       · cases hl)
     ((nondecQ_iff _).mp (by decide)) (by decide)⟩

/-- C5 (counterexample): with a global time span of `1/50 < DT` the engine
does not fail at all — it returns a result with one frame (`np.arange` yields
one tick).  No `InsufficientDataError` exists anywhere in the code. -/
theorem c5_counterexample :
    (1 / 50 : ℚ) < DT ∧
      (extractDriverData ents5).2.1 = some 0 ∧
      (extractDriverData ents5).2.2 = some (1 / 50) ∧
      (engine ents5 [] 1).map (fun o => o.frames.length) = some 1 := by
  refine ⟨by decide, by decide, by decide, by decide⟩

/-- C5 (amended): the engine fails (with an uncaught `TypeError` from
`np.arange(None, None, DT)`, modelled as `none`) exactly when no entity
yields a usable trace; with at least one trace it always returns a result,
whatever the time span — there is no typed `InsufficientDataError`. -/
theorem c5_fails_iff_no_traces (entities : List (String × List (Lap ℚ)))
    (ev : List (ℚ × String)) (k : ℕ) :
    engine entities ev k = none ↔ (extractDriverData entities).1 = [] := by
  rcases hE : extractDriverData entities with ⟨dd, og1, og2⟩
  have hinv := extractDriverData_none_iff entities
  rw [hE] at hinv
  simp only at hinv
  cases og1 with
  | none =>
    have hdd : dd = [] := hinv.1.mp rfl
    simp [engine, hE, hdd]
  | some gmin =>
    cases og2 with
    | none =>
      have hdd : dd = [] := hinv.2.mp rfl
      have : (some gmin : Option ℚ) = none := hinv.1.mpr hdd
      cases this
    | some gmax =>
      rw [engine_eq_of_extract hE]
      constructor
      · intro hfalse
        exact absurd hfalse (by simp)
      · intro hdd
        have h2 : (some gmin : Option ℚ) = none := hinv.1.mpr hdd
        cases h2

/-- C6 (counterexample): a required channel (speed) holding the non-finite
marker after concatenation does not make the engine fail — extraction
succeeds and the non-finite value is present in the trace.  No
`DataIntegrityError` exists anywhere in the code. -/
theorem c6_counterexample :
    (extractTrace [lap6]).map (fun tr => tr.map (·.speed)) = some [none] := by
  decide

/-- C6 (amended): the extraction step performs no finiteness validation and
substitutes no defaults: the extracted speed channel is a permutation of the
concatenated input speed values, non-finite markers included; the only
failure mode of extraction is the silent skip for an entity with no
samples. -/
theorem c6_values_carried (laps : List (Lap (Option ℚ)))
    (tr : List (TraceSample (Option ℚ)))
    (h : extractTrace laps = some tr) :
    (tr.map (·.speed)).Perm
      ((laps.map (fun l => l.samples.map (·.speed))).flatten) := by
  unfold extractTrace at h
  cases hp : processLaps 0 laps with
  | nil => rw [hp] at h; cases h
  | cons s ss =>
    rw [hp] at h
    have htr : tr = sortByT (s :: ss) := (Option.some.inj h).symm
    have hperm : tr.Perm (s :: ss) := by
      rw [htr]
      exact List.perm_insertionSort leT (s :: ss)
    have h2 := hperm.map (fun smp => smp.speed)
    rw [show ((s :: ss).map fun smp => smp.speed)
          = (processLaps 0 laps).map (·.speed) from by rw [hp]] at h2
    rw [processLaps_map_speed laps 0] at h2
    exact h2

/-- Witness for the C6 carry-through theorem at the concrete NaN input. -/
theorem c6_values_carried_witness :
    extractTrace [lap6] = some c6tr ∧
      (c6tr.map (·.speed)).Perm
        (([lap6].map (fun l => l.samples.map (·.speed))).flatten) ∧
      none ∈ c6tr.map (·.speed) :=
  ⟨by decide, c6_values_carried [lap6] c6tr (by decide), by decide⟩

/-- C7: for chronologically ordered status events, the built interval list is
contiguous (each interval's end is the next interval's start), the last
interval's end is null, each start time is the event time shifted by
`-global_t_min` (negative starts allowed), and the status codes keep the
event order. -/
theorem c7_status_intervals (gmin : ℚ) (evs : List (ℚ × String))
    (_hchron : (evs.map Prod.fst).Chain' (· ≤ ·)) :
    (∀ (i : ℕ) (a b : StatusInterval),
        (buildStatuses gmin evs)[i]? = some a →
        (buildStatuses gmin evs)[i + 1]? = some b →
        a.endTime = some b.startTime) ∧
      (∀ a : StatusInterval,
        (buildStatuses gmin evs).getLast? = some a → a.endTime = none) ∧
      (buildStatuses gmin evs).map (·.startTime) = evs.map (fun e => e.1 - gmin) ∧
      (buildStatuses gmin evs).map (·.status) = evs.map (·.2) := by
  rw [buildStatuses_eq]
  exact ⟨statusesAux_contiguous gmin evs, statusesAux_last gmin evs,
    statusesAux_map_start gmin evs, statusesAux_map_status gmin evs⟩

/-- Witness for `c7_status_intervals` at the spec's own example: events at 0
and 120 with `global_t_min = 10` give intervals starting at −10 and 110. -/
theorem c7_status_intervals_witness :
    buildStatuses 10 [(0, "1"), (120, "2")]
        = [{ status := "1", startTime := -10, endTime := some 110 },
           { status := "2", startTime := 110, endTime := none }] ∧
      ({ status := "1", startTime := -10, endTime := some 110 }
          : StatusInterval).endTime
        = some ({ status := "2", startTime := 110, endTime := none }
          : StatusInterval).startTime :=
  ⟨by decide,
   (c7_status_intervals 10 [(0, "1"), (120, "2")]
       ((nondecQ_iff _).mp (by decide))).1 0 _ _
     (by decide) (by decide)⟩

/-- C8: for every stride `k ≥ 1`, the engine's decimated frame sequence is
exactly the subsequence of the full-resolution (`frame_skip = 1`) frame
sequence at indices `0, k, 2k, …`, each kept frame unchanged and in order. -/
theorem c8_frame_skip_stride (entities : List (String × List (Lap ℚ)))
    (ev : List (ℚ × String)) (k : ℕ) (out1 outk : Output)
    (hk : 1 ≤ k) (h1 : engine entities ev 1 = some out1)
    (hk2 : engine entities ev k = some outk) (i : ℕ) :
    outk.frames[i]? = out1.frames[i * k]? := by
  rcases hE : extractDriverData entities with ⟨dd, og1, og2⟩
  cases og1 with
  | none =>
    simp only [engine, hE] at h1
    exact absurd h1 (by simp)
  | some gmin =>
    cases og2 with
    | none =>
      simp only [engine, hE] at h1
      exact absurd h1 (by simp)
    | some gmax =>
      rw [engine_eq_of_extract hE] at h1 hk2
      have hout1 : out1.frames = assembleFrames
          (dd.map fun ct => (ct.1, resampleTrace gmin (npTimeline gmin gmax) ct.2))
          (npTimeline gmin gmax) := by
        have h2 := (Option.some.inj h1).symm
        rw [h2]
        simp
      by_cases hkk : 1 < k
      · have houtk : outk.frames = pySliceStep k (assembleFrames
            (dd.map fun ct => (ct.1, resampleTrace gmin (npTimeline gmin gmax) ct.2))
            (npTimeline gmin gmax)) := by
          have h2 := (Option.some.inj hk2).symm
          rw [h2]
          simp [hkk]
        rw [hout1, houtk]
        exact pySliceStep_getElem k hk _ i
      · have hk1 : k = 1 := by omega
        subst hk1
        have houtk : outk.frames = assembleFrames
            (dd.map fun ct => (ct.1, resampleTrace gmin (npTimeline gmin gmax) ct.2))
            (npTimeline gmin gmax) := by
          have h2 := (Option.some.inj hk2).symm
          rw [h2]
          simp
        rw [hout1, houtk, mul_one]

/-- Witness for `c8_frame_skip_stride`: a four-frame race decimated with
stride 2. -/
theorem c8_frame_skip_stride_witness :
    (c8out2.frames[1]? = c8out1.frames[2]?) ∧
      c8out1.frames.length = 4 ∧ c8out2.frames.length = 2 :=
  ⟨c8_frame_skip_stride entsL [] 2 c8out1 c8out2 (by decide) (by decide)
     (by decide) 1,
   by decide, by decide⟩

/-- Convenience form of `filter_snd_enumFrom` for the distance filter over
`List.enum`. -/
theorem filter_dist_snd_enum (d : ℚ) (l : List Entry) :
    ((l.enum.filter (fun p => decide (p.2.dist = d))).map Prod.snd)
      = l.filter (fun e => decide (e.dist = d)) :=
  filter_snd_enumFrom (fun e : Entry => decide (e.dist = d)) l 0

/-- C2 (counterexample): with two identical entities inserted in the order
B, A, the single frame is an exact rounded-distance tie, yet B (inserted
first) receives position 1 while A — the lexicographically smaller code —
receives position 2: the stable sort breaks ties by insertion order, not by
code. -/
theorem c2_counterexample :
    (engine entsBA [] 1).map
        (fun o => o.frames.map (fun f => f.drivers.map
          (fun p => (p.1, p.2.position, p.2.dist))))
      = some [[("B", 1, 0), ("A", 2, 0)]]
      ∧ "A".data = ['A'] ∧ "B".data = ['B'] ∧ 'A' < 'B' := by
  refine ⟨by decide, by decide, by decide, by decide⟩

/-- C2 (amended): within every frame, entities are ordered by rounded race
distance non-increasing, and for every rounded distance value `d` the codes
of the entities tied at `d` appear in the same relative order as in the
engine's extracted driver mapping (dict insertion order — the entity
processing order), i.e. they form a subsequence of it: the stable descending
sort breaks ties by insertion order, not by code. -/
theorem c2_sort_descending_stable (entities : List (String × List (Lap ℚ)))
    (ev : List (ℚ × String)) (k : ℕ) (out : Output) (f : Frame)
    (h : engine entities ev k = some out) (hf : f ∈ out.frames) (d : ℚ) :
    f.drivers.Pairwise (fun a b => b.2.dist ≤ a.2.dist) ∧
      ((f.drivers.filter (fun p => decide (p.2.dist = d))).map Prod.fst).Sublist
        ((extractDriverData entities).1.map Prod.fst) := by
  obtain ⟨dd, gmin, gmax, τ, hE, hτ, hmk⟩ := frames_mem h hf
  obtain ⟨leader, rest, hs, ht, hlap, hdr⟩ := mkFrame_eq_some hmk
  have hdd1 : (extractDriverData entities).1 = dd := by rw [hE]
  constructor
  · have hsorted : List.Pairwise distGe (leader :: rest) := by
      have h0 : List.Sorted distGe (sortSnapshot (snapshotAt gmin dd τ)) :=
        List.sorted_insertionSort distGe (snapshotAt gmin dd τ)
      rwa [hs] at h0
    have h2 : List.Pairwise (fun p q : ℕ × Entry => distGe p.2 q.2)
        (leader :: rest).enum := by
      have h3 : List.Pairwise distGe ((leader :: rest).enum.map Prod.snd) := by
        rw [List.enum_map_snd]
        exact hsorted
      exact (List.pairwise_map).mp h3
    rw [hdr, List.pairwise_map]
    exact h2.imp (fun hab => hab)
  · rw [hdr, hdd1]
    rw [List.filter_map, List.map_map]
    rw [show ((fun p : String × DriverState => decide (p.2.dist = d)) ∘
        (fun p : ℕ × Entry => (p.2.code, entryState p.2 (p.1 + 1))))
        = (fun p : ℕ × Entry => decide (p.2.dist = d)) from rfl]
    rw [show (Prod.fst ∘ (fun p : ℕ × Entry => (p.2.code, entryState p.2 (p.1 + 1))))
        = ((fun e : Entry => e.code) ∘ Prod.snd) from rfl]
    rw [← List.map_map, filter_dist_snd_enum]
    rw [← hs, filter_dist_sortSnapshot]
    have hsub : ((snapshotAt gmin dd τ).filter
        (fun e => decide (e.dist = d))).Sublist (snapshotAt gmin dd τ) :=
      List.filter_sublist _
    have hsub2 := hsub.map (fun e : Entry => e.code)
    rw [snapshotAt_map_code] at hsub2
    exact hsub2

/-- Witness for `c2_sort_descending_stable` at the B-then-A tie race with
`d = 0`. -/
theorem c2_sort_descending_stable_witness :
    cbaFrame.drivers.Pairwise (fun a b => b.2.dist ≤ a.2.dist) ∧
      ((cbaFrame.drivers.filter (fun p => decide (p.2.dist = 0))).map
        Prod.fst).Sublist ((extractDriverData entsBA).1.map Prod.fst) :=
  c2_sort_descending_stable entsBA [] 1 cbaOut cbaFrame (by decide) (by decide) 0

/-- C9: `np.interp` clamps flat outside an entity's own time range — a tick
at or before the first (shifted) timestamp evaluates every channel to the
first sample's value, a tick after the last timestamp to the last sample's
value — and no entity is excluded for not spanning the global bounds: every
frame's drivers mapping holds exactly the extracted entity codes. -/
theorem c9_clamp_and_coverage :
    (∀ (s0 : TraceSample ℚ) (rest : List (TraceSample ℚ)) (τ : ℚ),
        τ ≤ s0.t → sampleTick (s0 :: rest) τ = tickOfSample s0) ∧
      (∀ (l : List (TraceSample ℚ)) (sl : TraceSample ℚ) (τ : ℚ),
        l.Chain' (fun a b => a.t ≤ b.t) → l.getLast? = some sl → sl.t < τ →
          sampleTick l τ = tickOfSample sl) ∧
      (∀ (entities : List (String × List (Lap ℚ))) (ev : List (ℚ × String))
          (k : ℕ) (out : Output) (f : Frame),
        engine entities ev k = some out → f ∈ out.frames →
          (f.drivers.map Prod.fst).Perm
            ((extractDriverData entities).1.map Prod.fst)) := by
  refine ⟨sampleTick_first, sampleTick_last, ?_⟩
  intro entities ev k out f h hf
  obtain ⟨dd, gmin, gmax, τ, hE, hτ, hmk⟩ := frames_mem h hf
  obtain ⟨leader, rest, hs, ht, hlap, hdr⟩ := mkFrame_eq_some hmk
  have hdd1 : (extractDriverData entities).1 = dd := by rw [hE]
  rw [hdd1, hdr]
  rw [List.map_map]
  rw [show (Prod.fst ∘ (fun p : ℕ × Entry => (p.2.code, entryState p.2 (p.1 + 1))))
      = ((fun e : Entry => e.code) ∘ Prod.snd) from rfl]
  rw [← List.map_map, List.enum_map_snd]
  have hperm : (leader :: rest).Perm (snapshotAt gmin dd τ) := by
    rw [← hs]
    exact List.perm_insertionSort distGe (snapshotAt gmin dd τ)
  have h2 := hperm.map (fun e : Entry => e.code)
  rw [snapshotAt_map_code] at h2
  exact h2

/-- Witness for `c9_clamp_and_coverage`: clamping before the first and after
the last sample of concrete traces, and driver coverage of a two-driver
frame. -/
theorem c9_clamp_and_coverage_witness :
    (sampleTick [cs0] 0 = tickOfSample cs0) ∧
      (sampleTick [cs0, cs1] 3 = tickOfSample cs1) ∧
      (cbaFrame.drivers.map Prod.fst).Perm
        ((extractDriverData entsBA).1.map Prod.fst) :=
  ⟨c9_clamp_and_coverage.1 cs0 [] 0 (by decide),
   c9_clamp_and_coverage.2.1 [cs0, cs1] cs1 3
     (List.chain'_pair.mpr (by decide)) (by decide) (by decide),
   c9_clamp_and_coverage.2.2 entsBA [] 1 cbaOut cbaFrame (by decide) (by decide)⟩

/-- C10: every driver state in every frame carries `gear` and `drs` as the
interpolated channel value truncated toward zero (Python `int(...)`), while
`lap`, `tyre` and `speed` are rounded to the nearest integer
(`int(round(...))`); the two conversions differ on non-integer values, e.g.
2.9 truncates to 2 but rounds to 3. -/
theorem c10_gear_drs_truncated :
    (∀ (entities : List (String × List (Lap ℚ))) (ev : List (ℚ × String))
        (out : Output) (f : Frame) (c : String) (stt : DriverState),
      engine entities ev 1 = some out → f ∈ out.frames → (c, stt) ∈ f.drivers →
      ∃ dd gmin gmax τ tr,
        extractDriverData entities = (dd, some gmin, some gmax) ∧
        τ ∈ npTimeline gmin gmax ∧ (c, tr) ∈ dd ∧ f.t = pyRoundTo 2 τ ∧
        stt.gear = pyTrunc (npInterp τ
          ((shiftTrace gmin tr).map fun s => (s.t, s.gear))) ∧
        stt.drs = pyTrunc (npInterp τ
          ((shiftTrace gmin tr).map fun s => (s.t, s.drs))) ∧
        stt.lap = pyRound (npInterp τ
          ((shiftTrace gmin tr).map fun s => (s.t, s.lap))) ∧
        stt.tyre = pyRound (npInterp τ
          ((shiftTrace gmin tr).map fun s => (s.t, s.tyre))) ∧
        stt.speed = pyRound (npInterp τ
          ((shiftTrace gmin tr).map fun s => (s.t, s.speed)))) ∧
      pyTrunc (29 / 10) = 2 ∧ pyRound (29 / 10) = 3 := by
  refine ⟨?_, by decide, by decide⟩
  intro entities ev out f c stt h hf hmem
  obtain ⟨dd, gmin, gmax, τ, hE, hτ, hmk⟩ := frames_mem h hf
  obtain ⟨leader, rest, hs, ht, hlap, hdr⟩ := mkFrame_eq_some hmk
  rw [hdr] at hmem
  obtain ⟨p, hp, hgp⟩ := List.mem_map.mp hmem
  have hpE : p.2 ∈ (leader :: rest) := by
    have h1 := List.mem_map_of_mem Prod.snd hp
    rwa [List.enum_map_snd] at h1
  have hpS : p.2 ∈ snapshotAt gmin dd τ := by
    have hperm : (leader :: rest).Perm (snapshotAt gmin dd τ) := by
      rw [← hs]
      exact List.perm_insertionSort distGe (snapshotAt gmin dd τ)
    exact hperm.mem_iff.mp hpE
  obtain ⟨ct, hct, hctE⟩ := List.mem_map.mp hpS
  simp only [Prod.mk.injEq] at hgp
  obtain ⟨hcode, hstt⟩ := hgp
  have hc1 : ct.1 = c := by
    rw [← hctE] at hcode
    exact hcode
  refine ⟨dd, gmin, gmax, τ, ct.2, hE, hτ, ?_, ht, ?_, ?_, ?_, ?_, ?_⟩
  · rw [← hc1]
    exact hct
  · rw [← hstt, ← hctE]
    rfl
  · rw [← hstt, ← hctE]
    rfl
  · rw [← hstt, ← hctE]
    rfl
  · rw [← hstt, ← hctE]
    rfl
  · rw [← hstt, ← hctE]
    rfl

/-- Witness for `c10_gear_drs_truncated` at the one-driver race. -/
theorem c10_gear_drs_truncated_witness :
    (∃ dd gmin gmax τ tr,
        extractDriverData c1ents = (dd, some gmin, some gmax) ∧
        τ ∈ npTimeline gmin gmax ∧ (c10pair.1, tr) ∈ dd ∧
        c1frame.t = pyRoundTo 2 τ ∧
        c10pair.2.gear = pyTrunc (npInterp τ
          ((shiftTrace gmin tr).map fun s => (s.t, s.gear))) ∧
        c10pair.2.drs = pyTrunc (npInterp τ
          ((shiftTrace gmin tr).map fun s => (s.t, s.drs))) ∧
        c10pair.2.lap = pyRound (npInterp τ
          ((shiftTrace gmin tr).map fun s => (s.t, s.lap))) ∧
        c10pair.2.tyre = pyRound (npInterp τ
          ((shiftTrace gmin tr).map fun s => (s.t, s.tyre))) ∧
        c10pair.2.speed = pyRound (npInterp τ
          ((shiftTrace gmin tr).map fun s => (s.t, s.speed)))) ∧
      pyTrunc (29 / 10) ≠ pyRound (29 / 10) :=
  ⟨c10_gear_drs_truncated.1 c1ents [] c1out c1frame c10pair.1 c10pair.2
     (by decide) (by decide) (by decide),
   by decide⟩

end

end F1
